import Mathlib

/-!
Verification of the cachesql/sqlcache repository: a shallow embedding of the
content-addressed cache store (key derivation via SHA-1, SQL-text
normalization, parquet/joblib serializers, the disk store with its
dump/exists/list/export operations), together with theorems settling the
frozen claims about it.

Conventions of the embedding:
* Strings and character lists model Python strings; `String.data` is used for
  character-level reasoning.
* The filesystem is a list of (path, file data) pairs; writing prepends, so
  lookup finds the newest version (overwrite semantics).
* Fallible operations return `Except`; Python exceptions are modelled by the
  error branch. `Err.arrowInvalid` models `pyarrow.lib.ArrowInvalid`,
  `Err.fileNotFound` models `FileNotFoundError` (the spec's NotFound).
* The numeric workhorse is `Nat`; 32-bit arithmetic is done modulo 2^32.
* `withNat` forces a natural number to literal form before continuing; it is
  semantically the identity (see `withNat_eq`) and exists so that concrete
  evaluation inside `decide` proofs runs with bounded stack.
-/

set_option maxRecDepth 100000

/-- Continuation applied to a natural number after forcing it to literal
form. Semantically `withNat n k = k n`. -/
def withNat (n : Nat) (k : Nat → α) : α :=
  match n with
  | 0 => k 0
  | m + 1 => k (m + 1)

/-- Tail-recursive length of a character list, with a strict accumulator. -/
def lenAcc : Nat → List α → Nat
  | n, [] => n
  | n, _ :: l => withNat (n + 1) fun m => lenAcc m l

/-- Length of a string, as Python `len` (number of characters). -/
def strLen (s : String) : Nat := lenAcc 0 s.data

/-! ## SHA-1

Model of `hashlib.sha1(...).hexdigest()` as used by `hash_query`
(src/sqlcache/store.py). Message bytes are naturals below 256; words are
naturals below 2^32. -/

/-- Truncate to a 32-bit word. -/
def w32 (x : Nat) : Nat := x % 4294967296

/-- Rotate a 32-bit word left by `n` bits. -/
def rotl (n x : Nat) : Nat := ((x <<< n) + (x >>> (32 - n))) % 4294967296

/-- The SHA-1 round function for round `t`. -/
def sha1f (t b c d : Nat) : Nat :=
  if t < 20 then (b &&& c) ||| ((b ^^^ 4294967295) &&& d)
  else if t < 40 then b ^^^ c ^^^ d
  else if t < 60 then (b &&& c) ||| (b &&& d) ||| (c &&& d)
  else b ^^^ c ^^^ d

/-- The SHA-1 round constant for round `t`. -/
def sha1k (t : Nat) : Nat :=
  if t < 20 then 1518500249
  else if t < 40 then 1859775393
  else if t < 60 then 2400959708
  else 3395469782

/-- Message-schedule extension; the word list is kept in reverse order
(most recent word first), and `n` more words are produced. -/
def schedRev : Nat → List Nat → List Nat
  | 0, ws => ws
  | n + 1, ws =>
      withNat (rotl 1 ((ws.get! 2) ^^^ (ws.get! 7) ^^^ (ws.get! 13) ^^^ (ws.get! 15)))
        fun w => schedRev n (w :: ws)

/-- The 80 SHA-1 rounds over the scheduled words, from round `t` on. -/
def sha1rounds : Nat → List Nat → Nat → Nat → Nat → Nat → Nat →
    Nat × Nat × Nat × Nat × Nat
  | _, [], a, b, c, d, e => (a, b, c, d, e)
  | t, w :: ws, a, b, c, d, e =>
      withNat (w32 (rotl 5 a + sha1f t b c d + e + sha1k t + w)) fun tmp =>
      withNat (rotl 30 b) fun b2 =>
      withNat (t + 1) fun t2 =>
      sha1rounds t2 ws tmp a b2 c d

/-- Fold the SHA-1 compression function over a list of 16-word blocks. -/
def sha1blocks : List (List Nat) → Nat → Nat → Nat → Nat → Nat →
    Nat × Nat × Nat × Nat × Nat
  | [], h0, h1, h2, h3, h4 => (h0, h1, h2, h3, h4)
  | blk :: bs, h0, h1, h2, h3, h4 =>
      match sha1rounds 0 ((schedRev 64 blk.reverse).reverse) h0 h1 h2 h3 h4 with
      | (a, b, c, d, e) =>
          withNat (w32 (h0 + a)) fun g0 =>
          withNat (w32 (h1 + b)) fun g1 =>
          withNat (w32 (h2 + c)) fun g2 =>
          withNat (w32 (h3 + d)) fun g3 =>
          withNat (w32 (h4 + e)) fun g4 =>
          sha1blocks bs g0 g1 g2 g3 g4

/-- Big-endian byte decomposition of `n`, `c` bytes wide. -/
def beBytes : Nat → Nat → List Nat
  | 0, _ => []
  | c + 1, n => beBytes c (n >>> 8) ++ [n &&& 255]

/-- SHA-1 padding appended to a message of byte length `len`: the 0x80 marker,
zeros up to 56 mod 64, and the 64-bit big-endian bit length. -/
def padTail (len : Nat) : List Nat :=
  128 :: List.replicate ((119 - (len % 64)) % 64) 0 ++ beBytes 8 (8 * len)

/-- Pack bytes into big-endian 32-bit words, four at a time. -/
def bytesToWords : List Nat → List Nat
  | b1 :: b2 :: b3 :: b4 :: r =>
      (((b1 * 256 + b2) * 256 + b3) * 256 + b4) :: bytesToWords r
  | _ => []

/-- Chunk a word list into 16-word blocks. -/
def toBlocks : List Nat → List (List Nat)
  | w1 :: w2 :: w3 :: w4 :: w5 :: w6 :: w7 :: w8 :: w9 :: w10 :: w11 :: w12 :: w13 :: w14 :: w15 :: w16 :: r =>
      [w1, w2, w3, w4, w5, w6, w7, w8, w9, w10, w11, w12, w13, w14, w15, w16] :: toBlocks r
  | _ => []

/-- Lower-case hexadecimal digit. -/
def hexChar (d : Nat) : Char := if d < 10 then Char.ofNat (48 + d) else Char.ofNat (87 + d)

/-- Big-endian hexadecimal rendering of `n`, `w` digits wide. -/
def hexOf : Nat → Nat → List Char
  | 0, _ => []
  | w + 1, n => hexOf w (n / 16) ++ [hexChar (n % 16)]

/-- SHA-1 initial state. -/
def sha1init : Nat × Nat × Nat × Nat × Nat :=
  (1732584193, 4023233417, 2562383102, 271733878, 3285377520)

/-- Render a five-word SHA-1 state as its 40-character hex digest. -/
def sha1digest : Nat × Nat × Nat × Nat × Nat → String
  | (h0, h1, h2, h3, h4) =>
      String.mk (hexOf 8 h0 ++ hexOf 8 h1 ++ hexOf 8 h2 ++ hexOf 8 h3 ++ hexOf 8 h4)

/-- SHA-1 hex digest of a byte list, as `hashlib.sha1(m).hexdigest()`.
The byte length is computed strictly up front (as `lenAcc`), then the padded
message is compressed block by block. -/
def sha1hex (m : List Nat) : String :=
  withNat (lenAcc 0 m) fun len =>
  sha1digest (match sha1init with
  | (h0, h1, h2, h3, h4) =>
      sha1blocks (toBlocks (bytesToWords (m ++ padTail len))) h0 h1 h2 h3 h4)

/-- UTF-8 encoding of one character. -/
def utf8Char (c : Char) : List Nat :=
  let n := c.toNat
  if n < 128 then [n]
  else if n < 2048 then [192 + n / 64, 128 + n % 64]
  else if n < 65536 then [224 + n / 4096, 128 + (n / 64) % 64, 128 + n % 64]
  else [240 + n / 262144, 128 + (n / 4096) % 64, 128 + (n / 64) % 64, 128 + n % 64]

/-- UTF-8 encoding of a string, as Python `str.encode()`. -/
def utf8Bytes (s : String) : List Nat := (s.data.map utf8Char).flatten

/-! ## Query normalization

Model of `sqlcache.utils.normalize_query`. The length guard, the stripping
and the overall shape are from the source (src/sqlcache/utils.py). The body
of the formatter delegates in the source to the external `sqlparse.format`
with `reindent=True, keyword_case="upper", strip_comments=True`; that library
is not part of the repository, so the formatter below is modelled from the
spec (section 4.1): tokenize the text, drop double-dash line comments, fold
reserved keywords to upper case, leave identifiers untouched, and re-emit
with canonical whitespace. -/

/-- Whitespace test: space, tab, newline, carriage return. -/
def isWs (c : Char) : Bool := c = ' ' || c = '\t' || c = '\n' || c = '\r'

/-- One step of whitespace splitting, as a right fold: whitespace starts a
new (initially empty) word, anything else extends the current head word. -/
def addCh (c : Char) (acc : List (List Char)) : List (List Char) :=
  if isWs c then [] :: acc
  else
    match acc with
    | [] => [[c]]
    | w :: ws => (c :: w) :: ws

/-- Raw whitespace splitting; may contain empty words. -/
def wordsR (l : List Char) : List (List Char) := l.foldr addCh []

/-- Whitespace splitting into nonempty words. -/
def words (l : List Char) : List (List Char) :=
  (wordsR l).filter (fun w => !w.isEmpty)

/-- Join words with single spaces. -/
def joinSp : List (List Char) → List Char
  | [] => []
  | [t] => t
  | t :: ts => t ++ ' ' :: joinSp ts

/-- Comment stripper: drops double-dash line comments. The flag is true
while inside a comment (skipping to the end of the line). -/
def stripCommentsA : Bool → List Char → List Char
  | _, [] => []
  | true, c :: l => if c = '\n' then '\n' :: stripCommentsA false l else stripCommentsA true l
  | false, [c] => [c]
  | false, c :: d :: l =>
      if c = '-' && d = '-' then stripCommentsA true l
      else c :: stripCommentsA false (d :: l)

/-- Strip double-dash line comments. -/
def stripComments (l : List Char) : List Char := stripCommentsA false l

/-- Whether the list contains two adjacent dash characters (a comment
opener). -/
def hasDD : List Char → Bool
  | [] => false
  | [_] => false
  | c :: d :: l => (c = '-' && d = '-') || hasDD (d :: l)

/-- Head shape used in the comment-stripper invariant: empty or a newline. -/
def nlHead : List Char → Prop
  | [] => True
  | c :: _ => c = '\n'

/-- Uppercase an ASCII lowercase letter, leave everything else unchanged. -/
def upChar (c : Char) : Char :=
  if c = 'a' then 'A' else if c = 'b' then 'B' else if c = 'c' then 'C'
  else if c = 'd' then 'D' else if c = 'e' then 'E' else if c = 'f' then 'F'
  else if c = 'g' then 'G' else if c = 'h' then 'H' else if c = 'i' then 'I'
  else if c = 'j' then 'J' else if c = 'k' then 'K' else if c = 'l' then 'L'
  else if c = 'm' then 'M' else if c = 'n' then 'N' else if c = 'o' then 'O'
  else if c = 'p' then 'P' else if c = 'q' then 'Q' else if c = 'r' then 'R'
  else if c = 's' then 'S' else if c = 't' then 'T' else if c = 'u' then 'U'
  else if c = 'v' then 'V' else if c = 'w' then 'W' else if c = 'x' then 'X'
  else if c = 'y' then 'Y' else if c = 'z' then 'Z' else c

/-- Uppercase a whole token. -/
def mapUp (t : List Char) : List Char := t.map upChar

/-- Reserved SQL keywords folded to upper case by the formatter; identifiers
not in this list keep their case. -/
def KW : List (List Char) :=
  ["SELECT", "FROM", "WHERE", "GROUP", "BY", "ORDER", "HAVING", "AND", "OR",
   "NOT", "AS", "ON", "JOIN", "INNER", "LEFT", "RIGHT", "OUTER", "UNION",
   "ALL", "DISTINCT", "BETWEEN", "IN", "LIKE", "IS", "NULL", "CASE", "WHEN",
   "THEN", "ELSE", "END", "INSERT", "UPDATE", "DELETE", "VALUES", "SET",
   "LIMIT", "OFFSET", "EXCEPT", "INTERSECT"].map String.data

/-- Canonicalize one token: keywords (recognized case-insensitively) are
folded to upper case, identifiers are kept verbatim. -/
def canonToken (t : List Char) : List Char :=
  if mapUp t ∈ KW then mapUp t else t

/-- Canonical token sequence of a query text: strip comments, split on
whitespace, canonicalize keywords. -/
def canonTokens (l : List Char) : List (List Char) :=
  (words (stripComments l)).map canonToken

/-- Model of `sqlcache.utils.normalize_query(query, max_length=40000)`:
if the input exceeds `max_length` characters it is returned unchanged;
otherwise it is stripped, comments are removed, keywords are upper-cased and
whitespace is canonicalized (the formatter modelled from spec section 4.1 in
place of `sqlparse.format`). -/
def normalize_query (query : String) (max_length : Nat := 40000) : String :=
  if strLen query > max_length then query
  else String.mk (joinSp (canonTokens query.data))

/-- Model of `sqlcache.store.hash_query(query_string, normalize=False)`:
optionally normalize, then SHA-1 the UTF-8 bytes and render in hex. -/
def hash_query (query_string : String) (normalize : Bool := false) : String :=
  let q := if normalize then normalize_query query_string else query_string
  sha1hex (utf8Bytes q)

/-- The formalization of two query texts differing only in whitespace,
indentation, keyword case, or comments: after stripping comments, splitting
on whitespace and case-folding keywords, the token sequences coincide.
Identifier case is preserved by `canonToken`, so identifier-case differences
are not cosmetic under this relation. -/
def cosmeticEq (q1 q2 : String) : Prop := canonTokens q1.data = canonTokens q2.data

/-! ## Tables and serializers

Model of src/cachesql/serializer.py. A table is a pandas DataFrame reduced
to what the serializers inspect: named, typed columns (plus opaque row
data). `ColType.objCol` stands for a Python-object column (e.g. the UUID
column of the repository tests) that Arrow cannot encode. -/

inductive ColType
  | intCol
  | floatCol
  | strCol
  | objCol
deriving DecidableEq

/-- A tabular result: named, typed columns and opaque row data. -/
structure Table where
  cols : List (String × ColType)
  rows : List (List String)
deriving DecidableEq

/-- Whether Arrow (the parquet encoder) can represent a column type. -/
def arrowSupported : ColType → Bool
  | .objCol => false
  | _ => true

/-- Whether the table has a column the parquet encoding cannot represent;
`to_parquet` raises `pyarrow.lib.ArrowInvalid` exactly then. -/
def hasUnsupportedCol (t : Table) : Bool :=
  t.cols.any fun c => !arrowSupported c.2

/-- JSON-like metadata values (the claims only inspect string values). -/
inductive JsonV
  | vstr (s : String)
  | vnum (n : Int)
deriving DecidableEq

/-- A metadata mapping, keys in insertion order as a Python dict. -/
abbrev Metadata : Type := List (String × JsonV)

/-- Python dict update `m[k] = v`: replace in place if the key exists,
otherwise append. -/
def setKey (m : Metadata) (k : String) (v : JsonV) : Metadata :=
  if m.any (fun p => p.1 = k) then m.map (fun p => if p.1 = k then (k, v) else p)
  else m ++ [(k, v)]

/-- Look up a metadata key. -/
def lookupKey (m : Metadata) (k : String) : Option JsonV :=
  (m.find? (fun p => p.1 = k)).map Prod.snd

/-- On-disk file contents: a JSON metadata artifact or a serialized payload. -/
inductive FData
  | fjson (m : Metadata)
  | fpayload (t : Table)
deriving DecidableEq

/-- The filesystem: (path, contents) pairs, newest first. -/
abbrev FS : Type := List (String × FData)

/-- Read a path; the newest write wins. -/
def fsLookup : FS → String → Option FData
  | [], _ => none
  | (p, d) :: r, q => if p = q then some d else fsLookup r q

/-- Write a path (prepending, so it shadows older entries). -/
def fsWrite (fs : FS) (p : String) (d : FData) : FS := (p, d) :: fs

/-- Errors surfaced by the modelled operations. `arrowInvalid` models
`pyarrow.lib.ArrowInvalid` escaping `DataFrame.to_parquet`; `fileNotFound`
models `FileNotFoundError` (the spec's NotFound) raised when `ZipFile.write`
is given a missing file. -/
inductive Err
  | arrowInvalid
  | fileNotFound
deriving DecidableEq

/-- Prefix test on character lists. -/
def startsL : List Char → List Char → Bool
  | [], _ => true
  | _ :: _, [] => false
  | a :: as, b :: bs => a = b && startsL as bs

/-- Remove a prefix, or fail. -/
def stripPre : List Char → List Char → Option (List Char)
  | [], l => some l
  | _ :: _, [] => none
  | a :: as, b :: bs => if a = b then stripPre as bs else none

/-- Suffix test on character lists. -/
def endsL (suf l : List Char) : Bool := startsL suf.reverse l.reverse

/-- Substring test on character lists. -/
def hasSub (pat : List Char) : List Char → Bool
  | [] => pat.isEmpty
  | c :: r => startsL pat (c :: r) || hasSub pat r

/-- Substring test on strings, as Python `sub in s`. -/
def strContains (s sub : String) : Bool := hasSub sub.data s.data

/-- The last path component (Python `Path(p).name`). -/
def baseNameAux : List Char → List Char → List Char
  | acc, [] => acc.reverse
  | _, '/' :: r => baseNameAux [] r
  | acc, c :: r => baseNameAux (c :: acc) r

/-- The last path component (Python `Path(p).name`). -/
def baseName (p : String) : String := String.mk (baseNameAux [] p.data)

/-- Index of the last dot in a name, scanning from offset `i`. -/
def lastDotIdx : Nat → Option Nat → List Char → Option Nat
  | _, best, [] => best
  | i, best, c :: r => lastDotIdx (i + 1) (if c = '.' then some i else best) r

/-- Python `Path(p).suffix`: the extension of the last component, empty for
hidden files and trailing dots. -/
def pathSuffix (p : String) : String :=
  let name := baseNameAux [] p.data
  match lastDotIdx 0 none name with
  | some i => if 0 < i ∧ i + 1 < name.length then String.mk (name.drop i) else ""
  | none => ""

/-! ## Serializers (src/cachesql/serializer.py) -/

/-- The parquet serializer; `compression` as passed to the constructor. -/
structure ParquetSerializer where
  compression : Option String
deriving DecidableEq

/-- Class attribute `fmt` of `ParquetSerializer`. -/
def ParquetSerializer.fmt : String := "parquet"

/-- Class attribute `extension` of `ParquetSerializer`. -/
def ParquetSerializer.extension : String := ".parquet"

/-- Constructor default: `compression or "snappy"`. -/
def ParquetSerializer.effectiveCompression (ser : ParquetSerializer) : String :=
  ser.compression.getD "snappy"

/-- The `ValueError` message raised by `ParquetSerializer.dump` on
`pyarrow.lib.ArrowInvalid` (quotes of the source text elided): it names the
joblib fallback backend as the remediation. -/
def parquetUnsupportedMsg : String :=
  "It seems that your query is returning a column with a type not yet supported by Arrow. Consider using joblib instead: Database(uri=..., store_backend=joblib)"

/-- Model of `ParquetSerializer.dump`: attempt the parquet encoding; on a
column Arrow cannot represent, fail with the remediation message. -/
def ParquetSerializer.dump (_ser : ParquetSerializer) (results : Table)
    (filepath : String) (fs : FS) : Except String FS :=
  if hasUnsupportedCol results then Except.error parquetUnsupportedMsg
  else Except.ok (fsWrite fs filepath (FData.fpayload results))

/-- The joblib serializer; `compression` as passed to the constructor. -/
structure JoblibSerializer where
  compression : Option Nat
deriving DecidableEq

/-- Class attribute `fmt` of `JoblibSerializer`. -/
def JoblibSerializer.fmt : String := "joblib"

/-- Class attribute `extension` of `JoblibSerializer`. -/
def JoblibSerializer.extension : String := ".joblib"

/-- Constructor default: `compression or 0`. -/
def JoblibSerializer.effectiveCompression (ser : JoblibSerializer) : Nat :=
  ser.compression.getD 0

/-- Model of `JoblibSerializer.dump`: the generic object encoding always
succeeds. -/
def JoblibSerializer.dump (_ser : JoblibSerializer) (results : Table)
    (filepath : String) (fs : FS) : Except String FS :=
  Except.ok (fsWrite fs filepath (FData.fpayload results))

/-! ## The disk store (src/sqlcache/store.py, class ParquetStore) -/

/-- Model of `sqlcache.store.ParquetStore`: root directory and the
normalization flag, fixed at construction. -/
structure ParquetStore where
  cache_store : String
  normalize : Bool
deriving DecidableEq

/-- `ParquetStore.get_metadata_filepath`: `cache_store / (hash + ".json")`. -/
def ParquetStore.get_metadata_filepath (s : ParquetStore) (query_string : String) : String :=
  s.cache_store ++ "/" ++ hash_query query_string s.normalize ++ ".json"

/-- `ParquetStore.get_cache_filepath`: `cache_store / (hash + ".parquet")`. -/
def ParquetStore.get_cache_filepath (s : ParquetStore) (query_string : String) : String :=
  s.cache_store ++ "/" ++ hash_query query_string s.normalize ++ ".parquet"

/-- `ParquetStore.exists`: both the metadata artifact and the payload
artifact are present on disk. (`exists` is a Lean keyword, hence the Q.) -/
def ParquetStore.existsQ (s : ParquetStore) (fs : FS) (query_string : String) : Bool :=
  (fsLookup fs (s.get_metadata_filepath query_string)).isSome &&
  (fsLookup fs (s.get_cache_filepath query_string)).isSome

/-- `ParquetStore.dump_metadata`: inject the payload file name and the
(possibly normalized) query text, then write the JSON artifact. -/
def ParquetStore.dump_metadata (s : ParquetStore) (fs : FS) (query_string : String)
    (metadata : Metadata) : FS :=
  let md1 := setKey metadata "cache_file" (JsonV.vstr (baseName (s.get_cache_filepath query_string)))
  let md2 := setKey md1 "query_string"
    (JsonV.vstr (if s.normalize then normalize_query query_string else query_string))
  fsWrite fs (s.get_metadata_filepath query_string) (FData.fjson md2)

/-- `ParquetStore.dump_results`: write the payload via `to_parquet`; a column
Arrow cannot represent raises (state unchanged, error propagates). -/
def ParquetStore.dump_results (s : ParquetStore) (fs : FS) (query_string : String)
    (results : Table) : Except Err Unit × FS :=
  if hasUnsupportedCol results then (Except.error Err.arrowInvalid, fs)
  else (Except.ok (), fsWrite fs (s.get_cache_filepath query_string) (FData.fpayload results))

/-- `ParquetStore.dump`: `dump_results` then `dump_metadata`; an exception
from the former aborts before the latter runs. -/
def ParquetStore.dump (s : ParquetStore) (fs : FS) (query_string : String)
    (results : Table) (metadata : Metadata) : Except Err Unit × FS :=
  match ParquetStore.dump_results s fs query_string results with
  | (Except.error e, fs1) => (Except.error e, fs1)
  | (Except.ok _, fs1) => (Except.ok (), ParquetStore.dump_metadata s fs1 query_string metadata)

/-- Whether a path is a `*.json` file directly inside `root` (the glob
pattern of `ParquetStore.list`). -/
def isJsonEntry (root : String) (p : String) : Bool :=
  match stripPre (root.data ++ ['/']) p.data with
  | none => false
  | some name => (!name.contains '/') && endsL (String.data ".json") name

/-- The parsed metadata of every `*.json` artifact in the store root. -/
def globJson (root : String) (fs : FS) : List Metadata :=
  fs.filterMap fun e =>
    if isJsonEntry root e.1 then
      match e.2 with
      | FData.fjson m => some m
      | _ => none
    else none

/-- A pandas DataFrame reduced to what `list` returns: column names and
per-row values (missing keys become holes). -/
structure ListTable where
  cols : List String
  rows : List (List (Option JsonV))
deriving DecidableEq

/-- The fallback column set used by `ParquetStore.list` on an empty store. -/
def defaultMetaCols : List String := ["query_string", "cache_file", "executed_at", "duration"]

/-- Column names of `pd.DataFrame(records)`: keys in order of first
appearance. -/
def unionKeys (ms : List Metadata) : List String :=
  ms.foldl (fun acc m => acc ++ (m.map Prod.fst).filter (fun k => !acc.contains k)) []

/-- Model of `ParquetStore.list`: parse every metadata artifact in the root;
an empty store yields a zero-row table with the default columns. -/
def ParquetStore.list (s : ParquetStore) (fs : FS) : ListTable :=
  let cl := globJson s.cache_store fs
  if cl.isEmpty then { cols := defaultMetaCols, rows := [] }
  else { cols := unionKeys cl
         rows := cl.map fun m => (unionKeys cl).map fun k => lookupKey m k }

/-- The values of one column of a `ListTable`. -/
def colVals (t : ListTable) (k : String) : List (Option JsonV) :=
  t.rows.map fun r => (r.get? (t.cols.indexOf k)).join

/-- The `query_string` column of `self.list()`, as used by `export` for its
default query set (non-string or missing entries degrade to ""). -/
def queryStringsOf (s : ParquetStore) (fs : FS) : List String :=
  (colVals (ParquetStore.list s fs) "query_string").map fun v =>
    match v with
    | some (JsonV.vstr q) => q
    | _ => ""

/-- The body of `ParquetStore.export`: write, for each query in order, the
payload artifact then the metadata artifact into the archive under their
base names; `ZipFile.write` on a missing file raises `FileNotFoundError`. -/
def exportZip (s : ParquetStore) (fs : FS) : List String → Except Err (List (String × FData))
  | [] => Except.ok []
  | q :: rest =>
      match fsLookup fs (s.get_cache_filepath q) with
      | none => Except.error Err.fileNotFound
      | some dc =>
          match fsLookup fs (s.get_metadata_filepath q) with
          | none => Except.error Err.fileNotFound
          | some dm =>
              match exportZip s fs rest with
              | Except.error e => Except.error e
              | Except.ok tail =>
                  Except.ok ((baseName (s.get_cache_filepath q), dc)
                    :: (baseName (s.get_metadata_filepath q), dm) :: tail)

/-- Model of `ParquetStore.export(filename, queries=None)`: the query set is
`queries or self.list().query_string` (Python truthiness: `None` and the
empty collection both fall back to every listed entry); a bare filename gets
the `.zip` suffix; the result is the archive name with its entries.
(`export` is a Lean keyword, hence the name.) -/
def ParquetStore.exportCache (s : ParquetStore) (fs : FS) (filename : String)
    (queries : Option (List String)) : Except Err (String × List (String × FData)) :=
  let qs := match queries with
    | none => queryStringsOf s fs
    | some l => if l.isEmpty then queryStringsOf s fs else l
  let fname := if pathSuffix filename = "" then filename ++ ".zip" else filename
  match exportZip s fs qs with
  | Except.error e => Except.error e
  | Except.ok entries => Except.ok (fname, entries)

/-! ## The two-backend file store

Modelled from the spec: the class `FileStore` of cachesql/store.py is not
under src/ (only its tests and its caller cachesql/sql.py are), so its path
layout is modelled from spec sections 4.4 and 6: artifacts live at
`<root>/<format_tag>/<hex_digest><payload_ext>` with the sibling
`<hex_digest>.json` for metadata, where the format tag and extension come
from the serializer backend fixed at construction. -/

inductive Backend
  | parquet
  | joblib
deriving DecidableEq

/-- The serializer format tag (`serializer.fmt`). -/
def Backend.fmtTag : Backend → String
  | .parquet => ParquetSerializer.fmt
  | .joblib => JoblibSerializer.fmt

/-- The serializer payload extension (`serializer.extension`). -/
def Backend.extTag : Backend → String
  | .parquet => ParquetSerializer.extension
  | .joblib => JoblibSerializer.extension

/-- Modelled from the spec: `cachesql.store.FileStore` configuration —
root directory, serializer backend, normalization flag. -/
structure FileStore where
  cache_store : String
  backend : Backend
  normalize : Bool
deriving DecidableEq

/-- Modelled from the spec: `FileStore.get_cache_filepath` places the
payload under the format-tag subdirectory of the root. -/
def FileStore.get_cache_filepath (s : FileStore) (query : String) : String :=
  s.cache_store ++ "/" ++ s.backend.fmtTag ++ "/" ++ hash_query query s.normalize ++ s.backend.extTag

/-- Modelled from the spec: `FileStore.get_metadata_filepath` places the
sibling `.json` under the same format-tag subdirectory. -/
def FileStore.get_metadata_filepath (s : FileStore) (query : String) : String :=
  s.cache_store ++ "/" ++ s.backend.fmtTag ++ "/" ++ hash_query query s.normalize ++ ".json"

/-- Run the SHA-1 compression over blocks from a packed five-word state. -/
def sha1run (st : Nat × Nat × Nat × Nat × Nat) (bs : List (List Nat)) :
    Nat × Nat × Nat × Nat × Nat :=
  match st with
  | (a, b, c, d, e) => sha1blocks bs a b c d e

/-- An oversized query: one identifier followed by 40000 spaces, 40001
characters in total, which is beyond the normalizer size guard. -/
def bigQ : String := String.mk ('x' :: List.replicate 40000 ' ')

/-! ## Basic lemmas -/

theorem withNat_eq (n : Nat) (k : Nat → α) : withNat n k = k n := by
  cases n <;> rfl

theorem lenAcc_eq (l : List α) : ∀ n, lenAcc n l = n + l.length := by
  induction l with
  | nil => intro n; simp [lenAcc]
  | cons c r ih =>
      intro n
      rw [lenAcc, withNat_eq, ih (n + 1)]
      simp [List.length_cons]
      omega

theorem strLen_eq (s : String) : strLen s = s.length := by
  rw [strLen, lenAcc_eq]
  rw [Nat.zero_add]
  rfl

/-! ## Tokenizer lemmas -/

theorem wordsR_token (t : List Char) (hne : t ≠ [])
    (hws : ∀ c ∈ t, isWs c = false) : wordsR t = [t] := by
  induction t with
  | nil => simp at hne
  | cons c r ih =>
      cases r with
      | nil => simp [wordsR, addCh, hws c (by simp)]
      | cons d r2 =>
          have hr : wordsR (d :: r2) = [d :: r2] := by
            apply ih (by simp) fun x hx => hws x (List.mem_cons_of_mem _ hx)
          have : wordsR (c :: d :: r2) = addCh c (wordsR (d :: r2)) := rfl
          rw [this, hr]
          simp [addCh, hws c (by simp)]

theorem wordsR_sep (t : List Char) (l : List Char) (hne : t ≠ [])
    (hws : ∀ c ∈ t, isWs c = false) :
    wordsR (t ++ ' ' :: l) = t :: wordsR l := by
  induction t with
  | nil => simp at hne
  | cons c r ih =>
      cases r with
      | nil =>
          have hc : isWs c = false := hws c (by simp)
          have h1 : wordsR ((c :: []) ++ ' ' :: l) = addCh c (addCh ' ' (wordsR l)) := rfl
          rw [h1]
          have h2 : addCh ' ' (wordsR l) = [] :: wordsR l := by simp [addCh, isWs]
          rw [h2]
          simp [addCh, hc]
      | cons d r2 =>
          have hr : wordsR ((d :: r2) ++ ' ' :: l) = (d :: r2) :: wordsR l := by
            apply ih (by simp) fun x hx => hws x (List.mem_cons_of_mem _ hx)
          have : wordsR ((c :: d :: r2) ++ ' ' :: l) = addCh c (wordsR ((d :: r2) ++ ' ' :: l)) := rfl
          rw [this, hr]
          simp [addCh, hws c (by simp)]

theorem words_joinSp (ts : List (List Char))
    (h : ∀ t ∈ ts, t ≠ [] ∧ ∀ c ∈ t, isWs c = false) :
    words (joinSp ts) = ts := by
  induction ts with
  | nil => rfl
  | cons t ts ih =>
      cases ts with
      | nil =>
          have ht := h t (by simp)
          simp [joinSp, words, wordsR_token t ht.1 ht.2, List.filter, ht.1]
      | cons t2 ts2 =>
          have ht := h t (by simp)
          have hrest : words (joinSp (t2 :: ts2)) = t2 :: ts2 := by
            apply ih fun x hx => h x (List.mem_cons_of_mem _ hx)
          have hj : joinSp (t :: t2 :: ts2) = t ++ ' ' :: joinSp (t2 :: ts2) := rfl
          rw [words, hj, wordsR_sep t _ ht.1 ht.2]
          simp only [List.filter]
          have : (!t.isEmpty) = true := by
            cases t with
            | nil => exact absurd rfl ht.1
            | cons a b => rfl
          rw [this]
          rw [words] at hrest
          rw [hrest]

/-! ## Comment-stripper lemmas -/

theorem hasDD_cons_of_tail (c : Char) (l : List Char) (h : hasDD l = true) :
    hasDD (c :: l) = true := by
  cases l with
  | nil => simp [hasDD] at h
  | cons d r => simp [hasDD, h]

theorem hasDD_tail_of_cons (c : Char) (l : List Char) (h : hasDD (c :: l) = false) :
    hasDD l = false := by
  cases l with
  | nil => rfl
  | cons d r =>
      by_cases hdd : hasDD (d :: r) = true
      · rw [hasDD] at h
        simp [hdd] at h
      · simpa using hdd

theorem stripCommentsA_noop (l : List Char) (h : hasDD l = false) :
    stripCommentsA false l = l := by
  induction l with
  | nil => rfl
  | cons c r ih =>
      cases r with
      | nil => rfl
      | cons d r2 =>
          have hcd : (c = '-' && d = '-') = false := by
            rw [hasDD] at h
            rcases Bool.or_eq_false_iff.mp h with ⟨h1, _⟩
            exact h1
          rw [stripCommentsA, if_neg (by simp_all)]
          rw [ih (hasDD_tail_of_cons c (d :: r2) h)]

theorem hasDD_append_left (a b : List Char) (h : hasDD a = true) :
    hasDD (a ++ b) = true := by
  induction a with
  | nil => simp [hasDD] at h
  | cons c r ih =>
      cases r with
      | nil => simp [hasDD] at h
      | cons d r2 =>
          rw [hasDD] at h
          rcases Bool.or_eq_true_iff.mp h with h1 | h2
          · show hasDD (c :: d :: (r2 ++ b)) = true
            simp [hasDD, h1]
          · have := ih h2
            exact hasDD_cons_of_tail c _ this

theorem hasDD_cons_ne (c : Char) (l : List Char) (hc : (c = '-') = false) :
    hasDD (c :: l) = hasDD l := by
  cases l with
  | nil => simp [hasDD]
  | cons d r => simp [hasDD, hc]

theorem stripA_facts : ∀ (n : Nat) (l : List Char), l.length ≤ n →
    (∀ b, hasDD (stripCommentsA b l) = false) ∧
    nlHead (stripCommentsA true l) ∧
    (∀ d l2, l = d :: l2 →
      stripCommentsA false l = [] ∨
      (∃ r, stripCommentsA false l = d :: r) ∨
      (∃ r, stripCommentsA false l = '\n' :: r)) := by
  intro n
  induction n with
  | zero =>
      intro l hl
      have : l = [] := List.length_eq_zero.mp (Nat.le_zero.mp hl)
      subst this
      exact ⟨fun b => by cases b <;> rfl, trivial, fun d l2 h => by simp at h⟩
  | succ m ih =>
      intro l hl
      cases l with
      | nil => exact ⟨fun b => by cases b <;> rfl, trivial, fun d l2 h => by simp at h⟩
      | cons c r =>
          have hr : r.length ≤ m := by
            simp [List.length_cons] at hl
            omega
          obtain ⟨ihdd, ihnl, ihhead⟩ := ih r hr
          refine ⟨?_, ?_, ?_⟩
          · intro b
            cases b with
            | true =>
                by_cases hc : c = '\n'
                · subst hc
                  rw [show stripCommentsA true ('\n' :: r) = '\n' :: stripCommentsA false r from by
                    rw [stripCommentsA, if_pos rfl]]
                  rw [hasDD_cons_ne _ _ (by decide)]
                  exact ihdd false
                · rw [show stripCommentsA true (c :: r) = stripCommentsA true r from by
                    rw [stripCommentsA, if_neg hc]]
                  exact ihdd true
            | false =>
                cases r with
                | nil => rfl
                | cons d r2 =>
                    have hr2 : r2.length ≤ m := by
                      simp [List.length_cons] at hl
                      omega
                    by_cases hcd : (c = '-' && d = '-') = true
                    · rw [show stripCommentsA false (c :: d :: r2) = stripCommentsA true r2 from by
                        rw [stripCommentsA, if_pos hcd]]
                      exact ((ih r2 hr2).1 true)
                    · rw [show stripCommentsA false (c :: d :: r2)
                          = c :: stripCommentsA false (d :: r2) from by
                        rw [stripCommentsA, if_neg hcd]]
                      rcases ihhead d r2 rfl with he | ⟨rr, hrr⟩ | ⟨rr, hrr⟩
                      · rw [he]
                        rfl
                      · rw [hrr]
                        have hy : hasDD (d :: rr) = false := by
                          rw [← hrr]
                          exact ihdd false
                        rw [hasDD]
                        rw [hy]
                        have : (c = '-' && d = '-') = false := by
                          cases h1 : (c = '-' && d = '-') with
                          | false => rfl
                          | true => exact absurd h1 hcd
                        simp [this]
                      · rw [hrr]
                        have hy : hasDD ('\n' :: rr) = false := by
                          rw [← hrr]
                          exact ihdd false
                        rw [hasDD]
                        rw [hy]
                        simp
          · by_cases hc : c = '\n'
            · subst hc
              rw [show stripCommentsA true ('\n' :: r) = '\n' :: stripCommentsA false r from by
                rw [stripCommentsA, if_pos rfl]]
              exact rfl
            · rw [show stripCommentsA true (c :: r) = stripCommentsA true r from by
                rw [stripCommentsA, if_neg hc]]
              exact ihnl
          · intro d l2 hdl
            injection hdl with h1 h2
            subst h1
            subst h2
            cases r with
            | nil => exact Or.inr (Or.inl ⟨[], rfl⟩)
            | cons e r2 =>
                by_cases hcd : (c = '-' && e = '-') = true
                · rw [show stripCommentsA false (c :: e :: r2) = stripCommentsA true r2 from by
                    rw [stripCommentsA, if_pos hcd]]
                  have hr2 : r2.length ≤ m := by
                    simp [List.length_cons] at hl
                    omega
                  have hnl := (ih r2 hr2).2.1
                  cases hs : stripCommentsA true r2 with
                  | nil => exact Or.inl rfl
                  | cons y ys =>
                      right; right
                      refine ⟨ys, ?_⟩
                      have : nlHead (y :: ys) := hs ▸ hnl
                      simp [nlHead] at this
                      rw [this]
                · rw [show stripCommentsA false (c :: e :: r2)
                      = c :: stripCommentsA false (e :: r2) from by
                    rw [stripCommentsA, if_neg hcd]]
                  exact Or.inr (Or.inl ⟨_, rfl⟩)

theorem wordsR_head_pre (l : List Char) :
    ∀ w ws, wordsR l = w :: ws → ∃ l2, l = w ++ l2 := by
  induction l with
  | nil => intro w ws h; simp [wordsR] at h
  | cons c r ih =>
      intro w ws h
      have hw : wordsR (c :: r) = addCh c (wordsR r) := rfl
      rw [hw] at h
      by_cases hws : isWs c = true
      · rw [addCh.eq_def, if_pos hws] at h
        injection h with h1 h2
        subst h1
        exact ⟨c :: r, rfl⟩
      · rw [addCh.eq_def, if_neg hws] at h
        cases hwr : wordsR r with
        | nil =>
            rw [hwr] at h
            injection h with h1 h2
            subst h1
            exact ⟨r, rfl⟩
        | cons w2 ws2 =>
            rw [hwr] at h
            injection h with h1 h2
            subst h1
            obtain ⟨l2, hl2⟩ := ih w2 ws2 hwr
            exact ⟨l2, by rw [hl2]; rfl⟩

theorem wordsR_ddFree (l : List Char) (h : hasDD l = false) :
    ∀ w ∈ wordsR l, hasDD w = false := by
  induction l with
  | nil => intro w hw; simp [wordsR] at hw
  | cons c r ih =>
      intro w hw
      have htl : hasDD r = false := hasDD_tail_of_cons c r h
      have hw2 : w ∈ addCh c (wordsR r) := hw
      by_cases hws : isWs c = true
      · rw [addCh.eq_def, if_pos hws] at hw2
        rcases List.mem_cons.mp hw2 with h1 | h1
        · subst h1; rfl
        · exact ih htl w h1
      · rw [addCh.eq_def, if_neg hws] at hw2
        cases hwr : wordsR r with
        | nil =>
            rw [hwr] at hw2
            rcases List.mem_cons.mp hw2 with h1 | h1
            · subst h1; rfl
            · simp at h1
        | cons w2 ws2 =>
            rw [hwr] at hw2
            rcases List.mem_cons.mp hw2 with h1 | h1
            · subst h1
              obtain ⟨l2, hl2⟩ := wordsR_head_pre r w2 ws2 hwr
              have hpre : hasDD (c :: w2) = true → hasDD (c :: r) = true := by
                intro hdd
                rw [hl2, show c :: (w2 ++ l2) = (c :: w2) ++ l2 from rfl]
                exact hasDD_append_left _ _ hdd
              cases hdd : hasDD (c :: w2) with
              | false => rfl
              | true => rw [hpre hdd] at h; exact absurd h (by simp)
            · exact ih htl w (hwr ▸ List.mem_cons_of_mem w2 h1)

theorem wordsR_nonws (l : List Char) :
    ∀ w ∈ wordsR l, ∀ c ∈ w, isWs c = false := by
  induction l with
  | nil => intro w hw; simp [wordsR] at hw
  | cons c r ih =>
      intro w hw
      have hw2 : w ∈ addCh c (wordsR r) := hw
      by_cases hws : isWs c = true
      · rw [addCh.eq_def, if_pos hws] at hw2
        rcases List.mem_cons.mp hw2 with h1 | h1
        · subst h1; intro x hx; simp at hx
        · exact ih w h1
      · rw [addCh.eq_def, if_neg hws] at hw2
        cases hwr : wordsR r with
        | nil =>
            rw [hwr] at hw2
            rcases List.mem_cons.mp hw2 with h1 | h1
            · subst h1
              intro x hx
              rcases List.mem_singleton.mp hx with h2
              subst h2
              simpa using hws
            · simp at h1
        | cons w2 ws2 =>
            rw [hwr] at hw2
            rcases List.mem_cons.mp hw2 with h1 | h1
            · subst h1
              intro x hx
              rcases List.mem_cons.mp hx with h2 | h2
              · subst h2; simpa using hws
              · exact ih w2 (hwr ▸ List.mem_cons_self w2 ws2) x h2
            · exact ih w (hwr ▸ List.mem_cons_of_mem w2 h1)

theorem hasDD_sep_append (t r : List Char) (ht : hasDD t = false) (hr : hasDD r = false) :
    hasDD (t ++ ' ' :: r) = false := by
  induction t with
  | nil =>
      show hasDD (' ' :: r) = false
      rw [hasDD_cons_ne _ _ (by decide)]
      exact hr
  | cons c t2 ih =>
      cases t2 with
      | nil =>
          show hasDD (c :: ' ' :: r) = false
          rw [hasDD]
          have : (c = '-' && ' ' = '-') = false := by simp
          rw [this]
          simp only [Bool.false_or]
          rw [hasDD_cons_ne _ _ (by decide)]
          exact hr
      | cons d t3 =>
          show hasDD (c :: d :: (t3 ++ ' ' :: r)) = false
          rw [hasDD] at ht ⊢
          rcases Bool.or_eq_false_iff.mp ht with ⟨h1, h2⟩
          rw [h1]
          simp only [Bool.false_or]
          exact ih h2

theorem hasDD_joinSp (ts : List (List Char)) (h : ∀ t ∈ ts, hasDD t = false) :
    hasDD (joinSp ts) = false := by
  induction ts with
  | nil => rfl
  | cons t ts2 ih =>
      cases ts2 with
      | nil => exact h t (by simp)
      | cons t2 ts3 =>
          show hasDD (t ++ ' ' :: joinSp (t2 :: ts3)) = false
          exact hasDD_sep_append _ _ (h t (by simp))
            (ih fun x hx => h x (List.mem_cons_of_mem _ hx))

/-! ## Keyword canonicalization lemmas -/

theorem KW_ne : ∀ w ∈ KW, w ≠ [] := by decide

theorem KW_nonws : ∀ w ∈ KW, ∀ c ∈ w, isWs c = false := by decide

theorem KW_ddFree : ∀ w ∈ KW, hasDD w = false := by decide

theorem KW_fix : ∀ w ∈ KW, mapUp w = w := by decide

theorem canonToken_ne (t : List Char) (h : t ≠ []) : canonToken t ≠ [] := by
  unfold canonToken
  split_ifs with hk
  · exact KW_ne _ hk
  · exact h

theorem canonToken_nonws (t : List Char) (h : ∀ c ∈ t, isWs c = false) :
    ∀ c ∈ canonToken t, isWs c = false := by
  unfold canonToken
  split_ifs with hk
  · exact KW_nonws _ hk
  · exact h

theorem canonToken_ddFree (t : List Char) (h : hasDD t = false) :
    hasDD (canonToken t) = false := by
  unfold canonToken
  split_ifs with hk
  · exact KW_ddFree _ hk
  · exact h

theorem canonToken_idem (t : List Char) : canonToken (canonToken t) = canonToken t := by
  by_cases hk : mapUp t ∈ KW
  · have h1 : canonToken t = mapUp t := by unfold canonToken; exact if_pos hk
    rw [h1]
    unfold canonToken
    rw [KW_fix _ hk]
    exact if_pos hk
  · have h1 : canonToken t = t := by unfold canonToken; exact if_neg hk
    rw [h1]
    exact h1

theorem words_tok (l : List Char) (h : hasDD l = false) :
    ∀ w ∈ words l, w ≠ [] ∧ (∀ c ∈ w, isWs c = false) ∧ hasDD w = false := by
  intro w hw
  rcases List.mem_filter.mp hw with ⟨hmem, hne⟩
  refine ⟨?_, wordsR_nonws l w hmem, wordsR_ddFree l h w hmem⟩
  cases w with
  | nil => simp at hne
  | cons a b => simp

theorem stripComments_ddFree (l : List Char) : hasDD (stripComments l) = false :=
  (stripA_facts l.length l (Nat.le_refl _)).1 false

theorem canonTokens_tok (l : List Char) :
    ∀ w ∈ canonTokens l, w ≠ [] ∧ (∀ c ∈ w, isWs c = false) ∧ hasDD w = false := by
  intro w hw
  rcases List.mem_map.mp hw with ⟨w0, hw0, hcw⟩
  have h0 := words_tok (stripComments l) (stripComments_ddFree l) w0 hw0
  subst hcw
  exact ⟨canonToken_ne w0 h0.1, canonToken_nonws w0 h0.2.1, canonToken_ddFree w0 h0.2.2⟩

theorem canonTokens_joinSp (l : List Char) :
    canonTokens (joinSp (canonTokens l)) = canonTokens l := by
  have htok := canonTokens_tok l
  have hdd : hasDD (joinSp (canonTokens l)) = false :=
    hasDD_joinSp _ fun t ht => (htok t ht).2.2
  have hstrip : stripComments (joinSp (canonTokens l)) = joinSp (canonTokens l) :=
    stripCommentsA_noop _ hdd
  rw [canonTokens, hstrip, words_joinSp _ fun t ht => ⟨(htok t ht).1, (htok t ht).2.1⟩]
  rw [canonTokens, List.map_map]
  apply List.map_congr_left
  intro w0 hw0
  exact canonToken_idem w0

theorem normalize_query_idem (q : String) (m : Nat) :
    normalize_query (normalize_query q m) m = normalize_query q m := by
  by_cases h1 : strLen q > m
  · have h0 : normalize_query q m = q := by rw [normalize_query, if_pos h1]
    rw [h0]
    exact h0
  · have hq : normalize_query q m = String.mk (joinSp (canonTokens q.data)) := by
      rw [normalize_query, if_neg h1]
    by_cases h2 : strLen (normalize_query q m) > m
    · rw [normalize_query, if_pos h2]
    · rw [show normalize_query (normalize_query q m) m
          = String.mk (joinSp (canonTokens (normalize_query q m).data)) from by
        rw [normalize_query, if_neg h2]]
      rw [hq]
      show String.mk (joinSp (canonTokens (joinSp (canonTokens q.data)))) = _
      rw [canonTokens_joinSp]

/-! ## Model validation against the repository test suite -/

/-- The SHA-1 test vector from the repository test suite:
`hash_query("select top 3 * from Receipts")` in tests/test_store.py. -/
theorem modelcheck_hash_query_vector :
    hash_query "select top 3 * from Receipts" = "26689adeaee8e1b156ad49334ee522dd89bd9142" := by
  decide

/-- SHA-1 standard test vector. -/
theorem modelcheck_sha1_abc :
    sha1hex (utf8Bytes "abc") = "a9993e364706816aba3e25717850c26c9cd0d89d" := by
  decide

/-- Keyword-case differences normalize equal (tests/test_utils.py). -/
theorem modelcheck_normalize_case :
    normalize_query "select top 3 * from receipts" = normalize_query "SELECT top 3 * FROM receipts" := by
  decide

/-- Identifier case is preserved (tests/test_utils.py). -/
theorem modelcheck_normalize_ident :
    normalize_query "select top 3 * from receipts" ≠ normalize_query "SELECT top 3 * FROM Receipts" := by
  decide

/-- Trailing comments are stripped (tests/test_utils.py). -/
theorem modelcheck_normalize_comment :
    normalize_query "select top 3 * from receipts -- I have a comment"
      = normalize_query "SELECT top 3 * FROM receipts" := by
  decide

/-- Hashing with and without normalization differ on this query
(tests/test_store.py). -/
theorem modelcheck_hash_normalize_differs :
    hash_query "select top 3 * from Receipts" ≠ hash_query "select top 3 * from Receipts" true := by
  decide

/-! ## Store path lemmas -/

theorem meta_ne_cache (s : ParquetStore) (q : String) :
    ParquetStore.get_metadata_filepath s q ≠ ParquetStore.get_cache_filepath s q := by
  intro h
  have hlen := congrArg String.length h
  rw [ParquetStore.get_metadata_filepath, ParquetStore.get_cache_filepath] at hlen
  simp only [String.length_append] at hlen
  have h5 : (".json" : String).length = 5 := rfl
  have h8 : (".parquet" : String).length = 8 := rfl
  rw [h5, h8] at hlen
  omega

/-! ## Export lemmas -/

theorem exportZip_err (s : ParquetStore) (fs : FS) :
    ∀ qs : List String, (∃ q ∈ qs, ParquetStore.existsQ s fs q = false) →
      exportZip s fs qs = Except.error Err.fileNotFound := by
  intro qs
  induction qs with
  | nil => intro h; simp at h
  | cons q rest ih =>
      intro h
      rw [exportZip]
      cases hc : fsLookup fs (s.get_cache_filepath q) with
      | none => rfl
      | some dc =>
          cases hm : fsLookup fs (s.get_metadata_filepath q) with
          | none => rfl
          | some dm =>
              have hq : ParquetStore.existsQ s fs q = true := by
                rw [ParquetStore.existsQ, hc, hm]
                rfl
              rcases h with ⟨q0, hq0, hfalse⟩
              rcases List.mem_cons.mp hq0 with h1 | h1
              · subst h1
                rw [hq] at hfalse
                exact absurd hfalse (by simp)
              · rw [ih ⟨q0, h1, hfalse⟩]

theorem exportZip_ok_mem (s : ParquetStore) (fs : FS) :
    ∀ (qs : List String) (es : List (String × FData)),
      exportZip s fs qs = Except.ok es →
      ∀ e ∈ es, ∃ path, fsLookup fs path = some e.2 ∧ e.1 = baseName path := by
  intro qs
  induction qs with
  | nil =>
      intro es h e he
      rw [exportZip] at h
      injection h with h1
      subst h1
      simp at he
  | cons q rest ih =>
      intro es h e he
      rw [exportZip] at h
      cases hc : fsLookup fs (s.get_cache_filepath q) with
      | none => rw [hc] at h; exact absurd h (by simp)
      | some dc =>
          rw [hc] at h
          cases hm : fsLookup fs (s.get_metadata_filepath q) with
          | none => rw [hm] at h; exact absurd h (by simp)
          | some dm =>
              rw [hm] at h
              cases ht : exportZip s fs rest with
              | error e2 => rw [ht] at h; exact absurd h (by simp)
              | ok tail =>
                  rw [ht] at h
                  injection h with h1
                  subst h1
                  rcases List.mem_cons.mp he with h2 | h2
                  · subst h2
                    exact ⟨s.get_cache_filepath q, hc, rfl⟩
                  · rcases List.mem_cons.mp h2 with h3 | h3
                    · subst h3
                      exact ⟨s.get_metadata_filepath q, hm, rfl⟩
                    · exact ih tail ht e h3

/-! ## Normalization helper lemmas for the claims -/

theorem normalize_of_le (q : String) (h : q.length ≤ 40000) :
    normalize_query q = String.mk (joinSp (canonTokens q.data)) := by
  rw [normalize_query, if_neg]
  rw [strLen_eq]
  omega

theorem mapUp_length (t : List Char) : (mapUp t).length = t.length := by
  rw [mapUp, List.length_map]

theorem joinSp_inj_of_mapUp :
    ∀ ts1 ts2 : List (List Char), ts1.map mapUp = ts2.map mapUp →
      joinSp ts1 = joinSp ts2 → ts1 = ts2 := by
  intro ts1
  induction ts1 with
  | nil =>
      intro ts2 hmap hj
      cases ts2 with
      | nil => rfl
      | cons b t2 => simp at hmap
  | cons a t1 ih =>
      intro ts2 hmap hj
      cases ts2 with
      | nil => simp at hmap
      | cons b t2 =>
          simp only [List.map_cons, List.cons.injEq] at hmap
          obtain ⟨hab, htails⟩ := hmap
          have hlen : a.length = b.length := by
            have := congrArg List.length hab
            rwa [mapUp_length, mapUp_length] at this
          cases t1 with
          | nil =>
              cases t2 with
              | nil =>
                  have : a = b := hj
                  rw [this]
              | cons x xs => simp at htails
          | cons c1 cs1 =>
              cases t2 with
              | nil => simp at htails
              | cons c2 cs2 =>
                  have hj2 : a ++ ' ' :: joinSp (c1 :: cs1) = b ++ ' ' :: joinSp (c2 :: cs2) := hj
                  obtain ⟨hab2, htail2⟩ := List.append_inj hj2 hlen
                  injection htail2 with _ htail3
                  have := ih (c2 :: cs2) htails htail3
                  rw [hab2, this]

/-! ## Digest length lemmas -/

theorem hexOf_length : ∀ (w n : Nat), (hexOf w n).length = w := by
  intro w
  induction w with
  | zero => intro n; rfl
  | succ v ih =>
      intro n
      rw [hexOf, List.length_append, ih (n / 16)]
      rfl

theorem sha1digest_length (st : Nat × Nat × Nat × Nat × Nat) :
    (sha1digest st).length = 40 := by
  obtain ⟨h0, h1, h2, h3, h4⟩ := st
  show (String.mk (hexOf 8 h0 ++ hexOf 8 h1 ++ hexOf 8 h2 ++ hexOf 8 h3 ++ hexOf 8 h4)).length = 40
  show (hexOf 8 h0 ++ hexOf 8 h1 ++ hexOf 8 h2 ++ hexOf 8 h3 ++ hexOf 8 h4).length = 40
  simp [List.length_append, hexOf_length]

theorem sha1hex_length (m : List Nat) : (sha1hex m).length = 40 := by
  rw [sha1hex, withNat_eq]
  exact sha1digest_length _

theorem hash_query_length (q : String) (b : Bool) : (hash_query q b).length = 40 := by
  rw [hash_query]
  exact sha1hex_length _

theorem fs_cache_len_parquet (root : String) (n : Bool) (q : String) :
    (FileStore.get_cache_filepath ⟨root, Backend.parquet, n⟩ q).length = root.length + 57 := by
  rw [FileStore.get_cache_filepath]
  simp only [String.length_append, hash_query_length]
  have h1 : ("/" : String).length = 1 := rfl
  have h2 : (Backend.fmtTag Backend.parquet).length = 7 := rfl
  have h3 : (Backend.extTag Backend.parquet).length = 8 := rfl
  rw [h1, h2, h3]

theorem fs_cache_len_joblib (root : String) (n : Bool) (q : String) :
    (FileStore.get_cache_filepath ⟨root, Backend.joblib, n⟩ q).length = root.length + 55 := by
  rw [FileStore.get_cache_filepath]
  simp only [String.length_append, hash_query_length]
  have h1 : ("/" : String).length = 1 := rfl
  have h2 : (Backend.fmtTag Backend.joblib).length = 6 := rfl
  have h3 : (Backend.extTag Backend.joblib).length = 7 := rfl
  rw [h1, h2, h3]

theorem fs_meta_len_parquet (root : String) (n : Bool) (q : String) :
    (FileStore.get_metadata_filepath ⟨root, Backend.parquet, n⟩ q).length = root.length + 54 := by
  rw [FileStore.get_metadata_filepath]
  simp only [String.length_append, hash_query_length]
  have h1 : ("/" : String).length = 1 := rfl
  have h2 : (Backend.fmtTag Backend.parquet).length = 7 := rfl
  have h3 : (".json" : String).length = 5 := rfl
  rw [h1, h2, h3]

theorem fs_meta_len_joblib (root : String) (n : Bool) (q : String) :
    (FileStore.get_metadata_filepath ⟨root, Backend.joblib, n⟩ q).length = root.length + 53 := by
  rw [FileStore.get_metadata_filepath]
  simp only [String.length_append, hash_query_length]
  have h1 : ("/" : String).length = 1 := rfl
  have h2 : (Backend.fmtTag Backend.joblib).length = 6 := rfl
  have h3 : (".json" : String).length = 5 := rfl
  rw [h1, h2, h3]

/-! ## Claim theorems -/

/-- C1. For every store and every query string, `exists(query)` is true iff
both the metadata artifact and the payload artifact for the derived key are
present on disk; in particular, after a dump in which only the payload was
written (metadata absent), `exists` returns false. -/
theorem claim_c1_exists_iff_both_artifacts :
    ∀ (s : ParquetStore) (fs : FS) (q : String),
      (ParquetStore.existsQ s fs q = true ↔
        (fsLookup fs (ParquetStore.get_metadata_filepath s q)).isSome = true ∧
        (fsLookup fs (ParquetStore.get_cache_filepath s q)).isSome = true) ∧
      (∀ d : FData, fsLookup fs (ParquetStore.get_metadata_filepath s q) = none →
        ParquetStore.existsQ s (fsWrite fs (ParquetStore.get_cache_filepath s q) d) q = false) := by
  intro s fs q
  constructor
  · rw [ParquetStore.existsQ, Bool.and_eq_true]
  · intro d hnone
    have hne : ParquetStore.get_cache_filepath s q ≠ ParquetStore.get_metadata_filepath s q :=
      fun hh => meta_ne_cache s q hh.symm
    rw [ParquetStore.existsQ, fsWrite]
    rw [show fsLookup ((ParquetStore.get_cache_filepath s q, d) :: fs)
          (ParquetStore.get_metadata_filepath s q)
        = fsLookup fs (ParquetStore.get_metadata_filepath s q) from by
      rw [fsLookup, if_neg hne]]
    rw [hnone]
    rfl

/-- Witness for C1 at a concrete store, empty filesystem and query. -/
theorem claim_c1_witness :
    fsLookup ([] : FS) (ParquetStore.get_metadata_filepath ⟨"root", false⟩ "q") = none ∧
    ParquetStore.existsQ ⟨"root", false⟩
      (fsWrite [] (ParquetStore.get_cache_filepath ⟨"root", false⟩ "q")
        (FData.fpayload ⟨[], []⟩)) "q" = false :=
  ⟨rfl, (claim_c1_exists_iff_both_artifacts ⟨"root", false⟩ [] "q").2
    (FData.fpayload ⟨[], []⟩) rfl⟩

/-- C2. `dump` runs `dump_results` before `dump_metadata`: if the results
dump fails (unsupported column type), the error propagates with the
filesystem unchanged, so no metadata artifact is created or updated; on
success the metadata is written on top of the state holding the payload. -/
theorem claim_c2_dump_results_before_metadata :
    ∀ (s : ParquetStore) (fs : FS) (q : String) (r : Table) (md : Metadata),
      (hasUnsupportedCol r = true →
        ParquetStore.dump s fs q r md = (Except.error Err.arrowInvalid, fs) ∧
        fsLookup (ParquetStore.dump s fs q r md).2 (ParquetStore.get_metadata_filepath s q)
          = fsLookup fs (ParquetStore.get_metadata_filepath s q)) ∧
      (hasUnsupportedCol r = false →
        ParquetStore.dump s fs q r md =
          (Except.ok (), ParquetStore.dump_metadata s
            (fsWrite fs (ParquetStore.get_cache_filepath s q) (FData.fpayload r)) q md)) := by
  intro s fs q r md
  constructor
  · intro hbad
    have h1 : ParquetStore.dump s fs q r md = (Except.error Err.arrowInvalid, fs) := by
      rw [ParquetStore.dump, ParquetStore.dump_results, if_pos hbad]
    exact ⟨h1, by rw [h1]⟩
  · intro hgood
    rw [ParquetStore.dump, ParquetStore.dump_results, if_neg (by rw [hgood]; simp)]

/-- Witness for C2 at a concrete store and the UUID-column table of the
repository tests. -/
theorem claim_c2_witness :
    hasUnsupportedCol ⟨[("uuid_col", ColType.objCol)], []⟩ = true ∧
    ParquetStore.dump ⟨"root", false⟩ [] "q" ⟨[("uuid_col", ColType.objCol)], []⟩ []
      = (Except.error Err.arrowInvalid, []) :=
  ⟨by decide,
    ((claim_c2_dump_results_before_metadata ⟨"root", false⟩ [] "q"
      ⟨[("uuid_col", ColType.objCol)], []⟩ []).1 (by decide)).1⟩

/-- C5. An input longer than the configured maximum length (default 40000)
is returned unchanged by the normalizer. -/
theorem claim_c5_size_guard :
    ∀ (q : String) (max_length : Nat), q.length > max_length →
      normalize_query q max_length = q := by
  intro q ml h
  rw [normalize_query, if_pos]
  rw [strLen_eq]
  exact h

/-- Witness for C5 at a concrete oversized input. -/
theorem claim_c5_witness :
    ("abcd" : String).length > 3 ∧ normalize_query "abcd" 3 = "abcd" :=
  ⟨by decide, claim_c5_size_guard "abcd" 3 (by decide)⟩

/-- C6. On a table with a column the columnar encoding cannot represent, the
parquet serializer fails with the message naming the joblib fallback, while
the joblib serializer accepts the same table without error. -/
theorem claim_c6_format_rejection :
    ∀ (ps : ParquetSerializer) (js : JoblibSerializer) (t : Table) (path : String) (fs : FS),
      hasUnsupportedCol t = true →
      ParquetSerializer.dump ps t path fs = Except.error parquetUnsupportedMsg ∧
      strContains parquetUnsupportedMsg "joblib" = true ∧
      JoblibSerializer.dump js t path fs = Except.ok (fsWrite fs path (FData.fpayload t)) := by
  intro ps js t path fs hbad
  refine ⟨?_, by decide, rfl⟩
  rw [ParquetSerializer.dump, if_pos hbad]

/-- Witness for C6 at the UUID-column table of the repository tests. -/
theorem claim_c6_witness :
    hasUnsupportedCol ⟨[("uuid_col", ColType.objCol)], []⟩ = true ∧
    ParquetSerializer.dump ⟨none⟩ ⟨[("uuid_col", ColType.objCol)], []⟩ "f.parquet" []
      = Except.error parquetUnsupportedMsg :=
  ⟨by decide,
    (claim_c6_format_rejection ⟨none⟩ ⟨none⟩ ⟨[("uuid_col", ColType.objCol)], []⟩
      "f.parquet" [] (by decide)).1⟩

/-- C7 counterexample: on an empty store, the columns of `list()` are not
`query, cache_file, executed_at, duration` — the first column of the code is
named `query_string`. -/
theorem claim_c7_counterexample :
    (ParquetStore.list ⟨"root", true⟩ []).cols
      ≠ ["query", "cache_file", "executed_at", "duration"] := by
  decide

/-- C7 amended: on a store with zero entries, `list()` returns a zero-row
table whose columns are exactly `query_string, cache_file, executed_at,
duration`, in that order. -/
theorem claim_c7_empty_store_schema :
    ∀ (s : ParquetStore) (fs : FS), globJson s.cache_store fs = [] →
      ParquetStore.list s fs
        = { cols := ["query_string", "cache_file", "executed_at", "duration"], rows := [] } := by
  intro s fs h
  rw [ParquetStore.list]
  simp only [h]
  rfl

/-- Witness for the amended C7 at a concrete empty store. -/
theorem claim_c7_witness :
    ParquetStore.list ⟨"root", true⟩ []
      = { cols := ["query_string", "cache_file", "executed_at", "duration"], rows := [] } :=
  claim_c7_empty_store_schema ⟨"root", true⟩ [] rfl

/-- C8. The two-backend store places payload and metadata artifacts under a
subdirectory of the root named after the serializer format tag, and two
stores on the same root with different backends never produce colliding
artifact paths. -/
theorem claim_c8_format_tag_namespacing :
    (∀ (s : FileStore) (q : String),
      (∃ rest, FileStore.get_cache_filepath s q
          = s.cache_store ++ "/" ++ Backend.fmtTag s.backend ++ "/" ++ rest) ∧
      (∃ rest, FileStore.get_metadata_filepath s q
          = s.cache_store ++ "/" ++ Backend.fmtTag s.backend ++ "/" ++ rest)) ∧
    (∀ (root : String) (n1 n2 : Bool) (q1 q2 : String) (b1 b2 : Backend), b1 ≠ b2 →
      FileStore.get_cache_filepath ⟨root, b1, n1⟩ q1
        ≠ FileStore.get_cache_filepath ⟨root, b2, n2⟩ q2 ∧
      FileStore.get_cache_filepath ⟨root, b1, n1⟩ q1
        ≠ FileStore.get_metadata_filepath ⟨root, b2, n2⟩ q2 ∧
      FileStore.get_metadata_filepath ⟨root, b1, n1⟩ q1
        ≠ FileStore.get_cache_filepath ⟨root, b2, n2⟩ q2 ∧
      FileStore.get_metadata_filepath ⟨root, b1, n1⟩ q1
        ≠ FileStore.get_metadata_filepath ⟨root, b2, n2⟩ q2) := by
  constructor
  · intro s q
    constructor
    · exact ⟨hash_query q s.normalize ++ Backend.extTag s.backend, by
        rw [FileStore.get_cache_filepath, String.append_assoc]⟩
    · exact ⟨hash_query q s.normalize ++ ".json", by
        rw [FileStore.get_metadata_filepath, String.append_assoc]⟩
  · intro root n1 n2 q1 q2 b1 b2 hne
    cases b1 with
    | parquet =>
        cases b2 with
        | parquet => exact absurd rfl hne
        | joblib =>
            refine ⟨?_, ?_, ?_, ?_⟩ <;> intro h <;> have hl := congrArg String.length h
            · rw [fs_cache_len_parquet, fs_cache_len_joblib] at hl; omega
            · rw [fs_cache_len_parquet, fs_meta_len_joblib] at hl; omega
            · rw [fs_meta_len_parquet, fs_cache_len_joblib] at hl; omega
            · rw [fs_meta_len_parquet, fs_meta_len_joblib] at hl; omega
    | joblib =>
        cases b2 with
        | joblib => exact absurd rfl hne
        | parquet =>
            refine ⟨?_, ?_, ?_, ?_⟩ <;> intro h <;> have hl := congrArg String.length h
            · rw [fs_cache_len_joblib, fs_cache_len_parquet] at hl; omega
            · rw [fs_cache_len_joblib, fs_meta_len_parquet] at hl; omega
            · rw [fs_meta_len_joblib, fs_cache_len_parquet] at hl; omega
            · rw [fs_meta_len_joblib, fs_meta_len_parquet] at hl; omega

/-- Witness for C8 at concrete distinct backends on a shared root. -/
theorem claim_c8_witness :
    Backend.parquet ≠ Backend.joblib ∧
    FileStore.get_cache_filepath ⟨"r", Backend.parquet, false⟩ "a"
      ≠ FileStore.get_cache_filepath ⟨"r", Backend.joblib, false⟩ "a" :=
  ⟨by decide,
    (claim_c8_format_tag_namespacing.2 "r" false false "a" "a"
      Backend.parquet Backend.joblib (by decide)).1⟩

/-- C9. `export` with an explicit non-empty query collection fails with the
file-not-found error when some requested query has no cached entry at call
time, and on success every archived entry is a file present at call time. -/
theorem claim_c9_export_not_found :
    ∀ (s : ParquetStore) (fs : FS) (filename : String) (queries : List String),
      queries ≠ [] →
      ((∃ q ∈ queries, ParquetStore.existsQ s fs q = false) →
        ParquetStore.exportCache s fs filename (some queries)
          = Except.error Err.fileNotFound) ∧
      (∀ fname entries,
        ParquetStore.exportCache s fs filename (some queries) = Except.ok (fname, entries) →
        ∀ e ∈ entries, ∃ path, fsLookup fs path = some e.2 ∧ e.1 = baseName path) := by
  intro s fs filename queries hne
  have hqs : (if queries.isEmpty then queryStringsOf s fs else queries) = queries := by
    cases queries with
    | nil => exact absurd rfl hne
    | cons a b => rfl
  constructor
  · intro hmiss
    rw [ParquetStore.exportCache]
    simp only [hqs]
    rw [exportZip_err s fs queries hmiss]
  · intro fname entries hok e he
    rw [ParquetStore.exportCache] at hok
    simp only [hqs] at hok
    cases ht : exportZip s fs queries with
    | error e2 => rw [ht] at hok; exact absurd hok (by simp)
    | ok es =>
        rw [ht] at hok
        injection hok with h1
        injection h1 with h2 h3
        subst h3
        exact exportZip_ok_mem s fs queries es ht e he

/-- Witness for C9: a concrete store with an empty filesystem and one
requested query. -/
theorem claim_c9_witness :
    (["a"] : List String) ≠ [] ∧
    ParquetStore.existsQ ⟨"root", false⟩ [] "a" = false ∧
    ParquetStore.exportCache ⟨"root", false⟩ [] "out.zip" (some ["a"])
      = Except.error Err.fileNotFound :=
  ⟨by decide, rfl,
    (claim_c9_export_not_found ⟨"root", false⟩ [] "out.zip" ["a"] (by decide)).1
      ⟨"a", by decide, rfl⟩⟩

/-- C10. `export` with an explicitly supplied empty query collection behaves
exactly as if the argument were omitted (the code tests truthiness, and the
empty collection is falsy), so every listed entry is exported. -/
theorem claim_c10_export_empty_queries :
    ∀ (s : ParquetStore) (fs : FS) (filename : String),
      ParquetStore.exportCache s fs filename (some [])
        = ParquetStore.exportCache s fs filename none := by
  intro s fs filename
  rfl

/-! ## C4: idempotence claim -/

/-- C4. The query normalizer is idempotent:
`normalize(normalize(x)) == normalize(x)` for every string. -/
theorem claim_c4_normalize_idempotent :
    ∀ q : String, normalize_query (normalize_query q) = normalize_query q :=
  fun q => normalize_query_idem q 40000

/-! ## C3: normalization equivalence -/

/-- C3 amended, within the normalizer size guard (inputs of at most 40000
characters): queries differing only in whitespace, indentation, keyword case
or comments hash identically under normalization; queries whose canonical
tokens differ only in letter case but are not equal (an identifier-case
difference) normalize differently; and the spec's identifier-case example
pair has different keys. -/
theorem claim_c3_normalization_equivalence :
    (∀ q1 q2 : String, q1.length ≤ 40000 → q2.length ≤ 40000 → cosmeticEq q1 q2 →
        hash_query q1 true = hash_query q2 true) ∧
    (∀ q1 q2 : String, q1.length ≤ 40000 → q2.length ≤ 40000 →
        (canonTokens q1.data).map mapUp = (canonTokens q2.data).map mapUp →
        canonTokens q1.data ≠ canonTokens q2.data →
        normalize_query q1 ≠ normalize_query q2) ∧
    hash_query "FROM receipts" true ≠ hash_query "FROM Receipts" true := by
  refine ⟨?_, ?_, by decide⟩
  · intro q1 q2 h1 h2 hcos
    show sha1hex (utf8Bytes (normalize_query q1)) = sha1hex (utf8Bytes (normalize_query q2))
    rw [normalize_of_le q1 h1, normalize_of_le q2 h2, hcos]
  · intro q1 q2 h1 h2 hmap hne heq
    rw [normalize_of_le q1 h1, normalize_of_le q2 h2] at heq
    have hdata : joinSp (canonTokens q1.data) = joinSp (canonTokens q2.data) := by
      have := congrArg String.data heq
      exact this
    exact hne (joinSp_inj_of_mapUp _ _ hmap hdata)

/-- Witness for C3 at concrete in-guard query pairs. -/
theorem claim_c3_witness :
    cosmeticEq "select 1" "SELECT  1" ∧
    hash_query "select 1" true = hash_query "SELECT  1" true ∧
    normalize_query "FROM receipts" ≠ normalize_query "FROM Receipts" :=
  ⟨by unfold cosmeticEq; decide,
    claim_c3_normalization_equivalence.1 "select 1" "SELECT  1"
      (by decide) (by decide) (by unfold cosmeticEq; decide),
    claim_c3_normalization_equivalence.2.1 "FROM receipts" "FROM Receipts"
      (by decide) (by decide) (by decide) (by decide)⟩

/-! ## C3 counterexample: the size guard breaks cosmetic-equivalence hashing

The pair is "x" and `bigQ` ("x" followed by 40000 spaces): they differ only
in whitespace, but `bigQ` exceeds the `max_length` guard, is therefore not
normalized, and hashes differently. The SHA-1 digest of the 40001-byte
message is computed in bounded chunks (the block list is split into pieces
of 78 blocks) so that each evaluation stays within the kernel reduction
budget. -/

theorem sha1blocks_append :
    ∀ (bs1 bs2 : List (List Nat)) (h0 h1 h2 h3 h4 : Nat),
      sha1blocks (bs1 ++ bs2) h0 h1 h2 h3 h4
        = sha1run (sha1blocks bs1 h0 h1 h2 h3 h4) bs2 := by
  intro bs1
  induction bs1 with
  | nil => intro bs2 h0 h1 h2 h3 h4; rfl
  | cons b bs ih =>
      intro bs2 h0 h1 h2 h3 h4
      show sha1blocks (b :: (bs ++ bs2)) h0 h1 h2 h3 h4
        = sha1run (sha1blocks (b :: bs) h0 h1 h2 h3 h4) bs2
      simp only [sha1blocks]
      rcases hst : sha1rounds 0 ((schedRev 64 b.reverse).reverse) h0 h1 h2 h3 h4
        with ⟨a1, b1, c1, d1, e1⟩
      simp only [withNat_eq]
      exact ih bs2 _ _ _ _ _

theorem sha1run_append (st : Nat × Nat × Nat × Nat × Nat) (bs1 bs2 : List (List Nat)) :
    sha1run st (bs1 ++ bs2) = sha1run (sha1run st bs1) bs2 := by
  obtain ⟨a, b, c, d, e⟩ := st
  exact sha1blocks_append bs1 bs2 a b c d e

theorem sha1run_rep_split (st : Nat × Nat × Nat × Nat × Nat) (B : List Nat) (m n : Nat) :
    sha1run st (List.replicate (m + n) B)
      = sha1run (sha1run st (List.replicate m B)) (List.replicate n B) := by
  rw [List.replicate_add, sha1run_append]

theorem flatten_rep_singleton : ∀ (n b : Nat),
    (List.replicate n ([b] : List Nat)).flatten = List.replicate n b := by
  intro n b
  induction n with
  | zero => rfl
  | succ m ih => simp [List.replicate_succ, ih]

theorem bytesToWords_rep4 : ∀ (k : Nat) (b : Nat) (r : List Nat),
    bytesToWords (List.replicate (4 * k) b ++ r)
      = List.replicate k (((b * 256 + b) * 256 + b) * 256 + b) ++ bytesToWords r := by
  intro k
  induction k with
  | zero => intro b r; rfl
  | succ m ih =>
      intro b r
      rw [show 4 * (m + 1) = 4 + 4 * m from by ring, List.replicate_add]
      rw [List.append_assoc]
      rw [show List.replicate 4 b = [b, b, b, b] from rfl]
      rw [show bytesToWords ([b, b, b, b] ++ (List.replicate (4 * m) b ++ r))
            = (((b * 256 + b) * 256 + b) * 256 + b)
              :: bytesToWords (List.replicate (4 * m) b ++ r) from rfl]
      rw [ih b r]
      rfl

theorem toBlocks_rep16 : ∀ (k : Nat) (w : Nat) (r : List Nat),
    toBlocks (List.replicate (16 * k) w ++ r)
      = List.replicate k (List.replicate 16 w) ++ toBlocks r := by
  intro k
  induction k with
  | zero => intro w r; rfl
  | succ m ih =>
      intro w r
      rw [show 16 * (m + 1) = 16 + 16 * m from by ring, List.replicate_add]
      rw [List.append_assoc]
      rw [show List.replicate 16 w
            = [w, w, w, w, w, w, w, w, w, w, w, w, w, w, w, w] from rfl]
      rw [show toBlocks ([w, w, w, w, w, w, w, w, w, w, w, w, w, w, w, w]
              ++ (List.replicate (16 * m) w ++ r))
            = [w, w, w, w, w, w, w, w, w, w, w, w, w, w, w, w]
              :: toBlocks (List.replicate (16 * m) w ++ r) from rfl]
      rw [ih w r]
      rfl

theorem noDash_hasDD : ∀ l : List Char, (∀ c ∈ l, c ≠ '-') → hasDD l = false := by
  intro l
  induction l with
  | nil => intro h; rfl
  | cons c r ih =>
      intro h
      cases r with
      | nil => rfl
      | cons d r2 =>
          rw [hasDD]
          have hc : c ≠ '-' := h c (by simp)
          simp [decide_eq_false hc, ih fun x hx => h x (List.mem_cons_of_mem _ hx)]

theorem wordsR_rep_ws : ∀ n, wordsR (List.replicate n ' ') = List.replicate n ([] : List Char) := by
  intro n
  induction n with
  | zero => rfl
  | succ m ih =>
      rw [List.replicate_succ]
      rw [show wordsR (' ' :: List.replicate m ' ') = addCh ' ' (wordsR (List.replicate m ' ')) from rfl]
      rw [ih]
      rw [show addCh ' ' (List.replicate m ([] : List Char))
            = [] :: List.replicate m ([] : List Char) from by simp [addCh, isWs]]
      rfl

theorem filter_rep_nil : ∀ n,
    (List.replicate n ([] : List Char)).filter (fun w => !w.isEmpty) = [] := by
  intro n
  induction n with
  | zero => rfl
  | succ m ih => simp [List.replicate_succ, List.filter, ih]

theorem padTail_40001 :
    padTail 40001 = 128 :: List.replicate 54 0 ++ [0, 0, 0, 0, 0, 4, 226, 8] := by
  rw [padTail]
  rw [show (119 - (40001 % 64)) % 64 = 54 from by norm_num]
  rw [show 8 * 40001 = 320008 from by norm_num]
  rw [show beBytes 8 320008 = [0, 0, 0, 0, 0, 4, 226, 8] from by decide]

theorem words_bigQ_stream :
    bytesToWords ((120 :: List.replicate 40000 32)
        ++ (128 :: List.replicate 54 0 ++ [0, 0, 0, 0, 0, 4, 226, 8]))
      = 2015371296 :: (List.replicate 9999 538976288
          ++ (545259520 :: (List.replicate 13 0 ++ [0, 320008]))) := by
  rw [show List.replicate 40000 32 = 32 :: 32 :: 32 :: List.replicate 39997 32 from rfl]
  rw [show (120 :: 32 :: 32 :: 32 :: List.replicate 39997 32)
        ++ (128 :: List.replicate 54 0 ++ [0, 0, 0, 0, 0, 4, 226, 8])
      = 120 :: 32 :: 32 :: 32 :: (List.replicate 39997 32
        ++ (128 :: List.replicate 54 0 ++ [0, 0, 0, 0, 0, 4, 226, 8])) from rfl]
  rw [show ∀ r : List Nat, bytesToWords (120 :: 32 :: 32 :: 32 :: r)
        = 2015371296 :: bytesToWords r from fun r => by rw [bytesToWords]]
  rw [show List.replicate 39997 32 = List.replicate (4 * 9999) 32 ++ [32] from by
    rw [show (39997 : Nat) = 4 * 9999 + 1 from by norm_num, List.replicate_add]
    rfl]
  rw [List.append_assoc]
  rw [bytesToWords_rep4]
  rw [show (((32 * 256 + 32) * 256 + 32) * 256 + 32 : Nat) = 538976288 from by norm_num]
  rw [show ([32] : List Nat) ++ (128 :: List.replicate 54 0 ++ [0, 0, 0, 0, 0, 4, 226, 8])
        = 32 :: 128 :: (List.replicate 54 0 ++ [0, 0, 0, 0, 0, 4, 226, 8]) from rfl]
  rw [show List.replicate 54 (0 : Nat) = 0 :: 0 :: List.replicate 52 0 from rfl]
  rw [show (32 : Nat) :: 128 :: ((0 :: 0 :: List.replicate 52 0) ++ [0, 0, 0, 0, 0, 4, 226, 8])
        = 32 :: 128 :: 0 :: 0 :: (List.replicate 52 0 ++ [0, 0, 0, 0, 0, 4, 226, 8]) from rfl]
  rw [show ∀ r : List Nat, bytesToWords (32 :: 128 :: 0 :: 0 :: r)
        = 545259520 :: bytesToWords r from fun r => by rw [bytesToWords]]
  rw [show List.replicate 52 (0 : Nat) = List.replicate (4 * 13) 0 from by norm_num]
  rw [bytesToWords_rep4]
  rw [show (((0 * 256 + 0) * 256 + 0) * 256 + 0 : Nat) = 0 from by norm_num]
  rw [show bytesToWords [0, 0, 0, 0, 0, 4, 226, 8] = [0, 320008] from by decide]

theorem blocks_bigQ :
    toBlocks (2015371296 :: (List.replicate 9999 538976288
        ++ (545259520 :: (List.replicate 13 0 ++ [0, 320008]))))
      = (2015371296 :: List.replicate 15 538976288)
        :: (List.replicate 624 (List.replicate 16 538976288)
            ++ [545259520 :: (List.replicate 13 0 ++ [0, 320008])]) := by
  rw [show List.replicate 9999 (538976288 : Nat)
        = List.replicate 15 538976288 ++ List.replicate (16 * 624) 538976288 from by
    rw [← List.replicate_add]]
  rw [List.append_assoc]
  rw [show toBlocks (2015371296 :: (List.replicate 15 538976288
        ++ (List.replicate (16 * 624) 538976288
            ++ (545259520 :: (List.replicate 13 0 ++ [0, 320008])))))
      = (2015371296 :: List.replicate 15 538976288)
        :: toBlocks (List.replicate (16 * 624) 538976288
            ++ (545259520 :: (List.replicate 13 0 ++ [0, 320008]))) from rfl]
  rw [toBlocks_rep16]
  rw [show toBlocks (545259520 :: (List.replicate 13 0 ++ [0, 320008]))
        = [545259520 :: (List.replicate 13 0 ++ [0, 320008])] from rfl]

theorem utf8_bigQ : utf8Bytes bigQ = 120 :: List.replicate 40000 32 := by
  show ((('x' :: List.replicate 40000 ' ').map utf8Char).flatten) = _
  rw [List.map_cons, List.map_replicate]
  rw [show utf8Char 'x' = [120] from rfl, show utf8Char ' ' = [32] from rfl]
  rw [List.flatten_cons]
  rw [flatten_rep_singleton]
  rfl

theorem bigQ_length : bigQ.length = 40001 := by
  show ('x' :: List.replicate 40000 ' ').length = 40001
  rw [List.length_cons, List.length_replicate]

theorem normalize_bigQ : normalize_query bigQ = bigQ := by
  rw [normalize_query]
  rw [if_pos (show strLen bigQ > 40000 from by rw [strLen_eq, bigQ_length]; omega)]

theorem sha1chunkB1 :
    sha1run sha1init [2015371296 :: List.replicate 15 538976288]
      = (2219013085, 561252130, 1888446611, 3508033144, 73797802) := by
  decide

theorem sha1chunkS1 :
    sha1run (2219013085, 561252130, 1888446611, 3508033144, 73797802)
      (List.replicate 78 (List.replicate 16 538976288))
      = (1475584913, 16118738, 2118078321, 3054919146, 1421223672) := by
  decide

theorem sha1chunkS2 :
    sha1run (1475584913, 16118738, 2118078321, 3054919146, 1421223672)
      (List.replicate 78 (List.replicate 16 538976288))
      = (3543322172, 3473644093, 4023581848, 2669811894, 2739439068) := by
  decide

theorem sha1chunkS3 :
    sha1run (3543322172, 3473644093, 4023581848, 2669811894, 2739439068)
      (List.replicate 78 (List.replicate 16 538976288))
      = (4243598421, 2248789970, 1563958588, 3410888944, 3139581808) := by
  decide

theorem sha1chunkS4 :
    sha1run (4243598421, 2248789970, 1563958588, 3410888944, 3139581808)
      (List.replicate 78 (List.replicate 16 538976288))
      = (2463015639, 3297638845, 2572490156, 370530607, 3479621596) := by
  decide

theorem sha1chunkS5 :
    sha1run (2463015639, 3297638845, 2572490156, 370530607, 3479621596)
      (List.replicate 78 (List.replicate 16 538976288))
      = (2157173402, 475164784, 2034109880, 3938942849, 3677835116) := by
  decide

theorem sha1chunkS6 :
    sha1run (2157173402, 475164784, 2034109880, 3938942849, 3677835116)
      (List.replicate 78 (List.replicate 16 538976288))
      = (3479761476, 733597476, 1035297580, 60554810, 1142292169) := by
  decide

theorem sha1chunkS7 :
    sha1run (3479761476, 733597476, 1035297580, 60554810, 1142292169)
      (List.replicate 78 (List.replicate 16 538976288))
      = (2863055099, 1425644567, 3599468466, 2887973493, 1551211857) := by
  decide

theorem sha1chunkS8 :
    sha1run (2863055099, 1425644567, 3599468466, 2887973493, 1551211857)
      (List.replicate 78 (List.replicate 16 538976288))
      = (285975245, 1918828416, 2476887699, 578570305, 2910881549) := by
  decide

theorem sha1chunkBL :
    sha1run (285975245, 1918828416, 2476887699, 578570305, 2910881549)
      [545259520 :: (List.replicate 13 0 ++ [0, 320008])]
      = (3018749380, 1571904711, 128101449, 1600522188, 1316936298) := by
  decide

theorem sha1digest_big :
    sha1digest (3018749380, 1571904711, 128101449, 1600522188, 1316936298)
      = "b3ee75c45db15cc707a2ac495f6607cc4e7eda6a" := by
  decide

theorem hash_bigQ : hash_query bigQ true = "b3ee75c45db15cc707a2ac495f6607cc4e7eda6a" := by
  have h1 : hash_query bigQ true = sha1hex (utf8Bytes (normalize_query bigQ)) := by
    simp only [hash_query, eq_self_iff_true, if_true]
  rw [h1, normalize_bigQ, utf8_bigQ]
  rw [sha1hex, withNat_eq]
  rw [show lenAcc 0 (120 :: List.replicate 40000 32) = 40001 from by
    rw [lenAcc_eq]
    rw [List.length_cons, List.length_replicate]]
  show sha1digest (sha1blocks (toBlocks (bytesToWords
      ((120 :: List.replicate 40000 32) ++ padTail 40001)))
      1732584193 4023233417 2562383102 271733878 3285377520) = _
  rw [padTail_40001, words_bigQ_stream, blocks_bigQ]
  rw [show sha1blocks ((2015371296 :: List.replicate 15 538976288)
        :: (List.replicate 624 (List.replicate 16 538976288)
            ++ [545259520 :: (List.replicate 13 0 ++ [0, 320008])]))
        1732584193 4023233417 2562383102 271733878 3285377520
      = sha1run sha1init ([2015371296 :: List.replicate 15 538976288]
          ++ (List.replicate 624 (List.replicate 16 538976288)
              ++ [545259520 :: (List.replicate 13 0 ++ [0, 320008])])) from rfl]
  rw [sha1run_append]
  rw [sha1chunkB1]
  rw [sha1run_append]
  rw [show (624 : Nat) = 78 + 546 from by norm_num, sha1run_rep_split, sha1chunkS1]
  rw [show (546 : Nat) = 78 + 468 from by norm_num, sha1run_rep_split, sha1chunkS2]
  rw [show (468 : Nat) = 78 + 390 from by norm_num, sha1run_rep_split, sha1chunkS3]
  rw [show (390 : Nat) = 78 + 312 from by norm_num, sha1run_rep_split, sha1chunkS4]
  rw [show (312 : Nat) = 78 + 234 from by norm_num, sha1run_rep_split, sha1chunkS5]
  rw [show (234 : Nat) = 78 + 156 from by norm_num, sha1run_rep_split, sha1chunkS6]
  rw [show (156 : Nat) = 78 + 78 from by norm_num, sha1run_rep_split, sha1chunkS7, sha1chunkS8]
  rw [sha1chunkBL]
  exact sha1digest_big

theorem canonTokens_x_sp (n : Nat) :
    canonTokens ('x' :: List.replicate n ' ') = [['x']] := by
  rw [canonTokens]
  rw [show stripComments ('x' :: List.replicate n ' ')
        = 'x' :: List.replicate n ' ' from by
    apply stripCommentsA_noop
    apply noDash_hasDD
    intro c hc
    rcases List.mem_cons.mp hc with h | h
    · subst h; decide
    · rw [List.eq_of_mem_replicate h]; decide]
  rw [words]
  cases n with
  | zero => decide
  | succ m =>
      rw [show List.replicate (m + 1) ' ' = ' ' :: List.replicate m ' ' from rfl]
      rw [show wordsR ('x' :: ' ' :: List.replicate m ' ')
            = addCh 'x' (addCh ' ' (wordsR (List.replicate m ' '))) from rfl]
      rw [wordsR_rep_ws]
      rw [show addCh ' ' (List.replicate m ([] : List Char))
            = [] :: List.replicate m ([] : List Char) from by simp [addCh, isWs]]
      rw [show addCh 'x' ([] :: List.replicate m ([] : List Char))
            = ['x'] :: List.replicate m ([] : List Char) from by simp [addCh, isWs]]
      rw [List.filter_cons_of_pos (by decide)]
      rw [filter_rep_nil]
      decide

theorem canonTokens_bigQ : canonTokens bigQ.data = [['x']] := by
  show canonTokens ('x' :: List.replicate 40000 ' ') = _
  exact canonTokens_x_sp 40000

/-- C3 counterexample: the queries "x" and `bigQ` (an x followed by 40000
spaces) differ only in whitespace, yet their normalized hashes differ,
because `bigQ` exceeds the normalizer size guard and is hashed verbatim. So
the claim as stated (for all cosmetically equivalent query pairs) is false
on the code. -/
theorem claim_c3_counterexample :
    cosmeticEq "x" bigQ ∧ hash_query "x" true ≠ hash_query bigQ true := by
  constructor
  · show canonTokens ("x" : String).data = canonTokens bigQ.data
    rw [canonTokens_bigQ]
    decide
  · rw [hash_bigQ]
    rw [show hash_query "x" true = "11f6ad8ec52a2984abaafd7c3b516503785c2072" from by decide]
    decide
